import Mathlib

set_option synthInstance.maxHeartbeats 1000000

/-
Verification of the batch-job lifecycle and result-reconciliation engine
in llm_extct_meta.py: correlation-id encoding and decoding, the batch
request compiler, the submitter, the status reconciler and the driver.
Identifiers and status values are modelled as lists of characters, and the
Python string operations used by the code (split, replace, pathlib stem)
are modelled exactly.
-/

namespace LlmExtctMeta

/-- Identifiers and status strings are lists of characters. -/
abbrev Str := List Char

/-- Worker for the model of Python str.split: scan left to right, cutting
at each non-overlapping occurrence of the separator.  The accumulator
holds the characters of the current piece in reverse order.  The fuel
argument only serves to make the recursion structural; every call keeps
the invariant that the fuel bounds the length of the string, so the
fuel-exhausted branch is never taken. -/
def pySplitAux (sep : Str) : Nat → Str → Str → List Str
  | _, [], acc => [acc.reverse]
  | 0, _ :: _, acc => [acc.reverse]
  | fuel + 1, c :: rest, acc =>
    if !sep.isEmpty && sep.isPrefixOf (c :: rest) then
      acc.reverse :: pySplitAux sep fuel (List.drop sep.length (c :: rest)) []
    else
      pySplitAux sep fuel rest (c :: acc)

/-- Python s.split(sep) for a nonempty separator. -/
def pySplit (sep s : Str) : List Str := pySplitAux sep s.length s []

/-- Worker for the model of Python str.replace, with the same use of fuel
as pySplitAux. -/
def pyReplaceAux (old new : Str) : Nat → Str → Str
  | _, [] => []
  | 0, _ :: _ => []
  | fuel + 1, c :: rest =>
    if !old.isEmpty && old.isPrefixOf (c :: rest) then
      new ++ pyReplaceAux old new fuel (List.drop old.length (c :: rest))
    else
      c :: pyReplaceAux old new fuel rest

/-- Python s.replace(old, new) for a nonempty old: substitute new for the
non-overlapping occurrences of old, found left to right. -/
def pyReplace (old new s : Str) : Str := pyReplaceAux old new s.length s

/-- Decidable check that sep occurs somewhere in s as a contiguous block. -/
def containsSeq (sep : Str) : Str → Bool
  | [] => sep.isEmpty
  | c :: rest => sep.isPrefixOf (c :: rest) || containsSeq sep rest

/-- The outer correlation separator, the two-character string of line 64. -/
def sepStr : Str := ['_', '_']

/-- The page marker of the correlation identifier, the string of line 64. -/
def pageTag : Str := ['p', 'a', 'g', 'e', '-']

/-- Encoding of line 64: the correlation identifier built by
prepare_batch_file for a document and a page. -/
def makeCustomId (pdfName page : Str) : Str := pdfName ++ sepStr ++ pageTag ++ page

/-- Decoding of lines 151 and 152 of check_batch_status: unpack the split
into exactly two pieces (a different arity raises, modelled as none), then
remove every occurrence of the page marker from the second piece. -/
def decodeCustomId (cid : Str) : Option (Str × Str) :=
  match pySplit sepStr cid with
  | [pdf, pagePart] => some (pdf, pyReplace pageTag [] pagePart)
  | _ => none

example : pySplit sepStr ("A.pdf__page-1".toList) = ["A.pdf".toList, "page-1".toList] := by decide

example : decodeCustomId (makeCustomId "A.pdf".toList "1".toList) =
    some ("A.pdf".toList, "1".toList) := by decide

example : decodeCustomId (makeCustomId "A_".toList "1".toList) =
    some ("A".toList, "_1".toList) := by decide

example : decodeCustomId (makeCustomId "A".toList "1__2".toList) = none := by decide

/-! Helper lemmas about the modelled Python string operations. -/

lemma isPrefixOf_append_self : ∀ (s t : Str), s.isPrefixOf (s ++ t) = true
  | [], [] => rfl
  | [], _ :: _ => rfl
  | c :: s, t => by simp [List.isPrefixOf, isPrefixOf_append_self s t]

lemma sepStr_isPrefixOf_iff : ∀ l : Str, sepStr.isPrefixOf l = true ↔ ∃ t, l = '_' :: '_' :: t := by
  intro l
  match l with
  | [] => simp [sepStr, List.isPrefixOf]
  | [a] => simp [sepStr, List.isPrefixOf]
  | a :: b :: t =>
    simp only [sepStr, List.isPrefixOf, Bool.and_eq_true, beq_iff_eq, List.cons.injEq]
    constructor
    · rintro ⟨h1, h2, -⟩
      exact ⟨t, by simp [← h1, ← h2]⟩
    · rintro ⟨t', h1, h2, h3⟩
      simp [h1, h2]

lemma containsSeq_false_cons {sep : Str} {c : Char} {rest : Str}
    (h : containsSeq sep (c :: rest) = false) :
    sep.isPrefixOf (c :: rest) = false ∧ containsSeq sep rest = false := by
  simpa [containsSeq] using h

/-- The result of pySplitAux does not depend on the fuel, as long as the fuel
bounds the length of the string. -/
lemma pySplitAux_fuel (sep : Str) :
    ∀ fuel₁ fuel₂ s acc, s.length ≤ fuel₁ → s.length ≤ fuel₂ →
      pySplitAux sep fuel₁ s acc = pySplitAux sep fuel₂ s acc := by
  intro fuel₁
  induction fuel₁ with
  | zero =>
    intro fuel₂ s acc h1 _
    have hs : s = [] := List.length_eq_zero.mp (Nat.le_zero.mp h1)
    subst hs
    cases fuel₂ <;> simp [pySplitAux]
  | succ f ih =>
    intro fuel₂ s acc h1 h2
    cases s with
    | nil => cases fuel₂ <;> simp [pySplitAux]
    | cons c rest =>
      cases fuel₂ with
      | zero => simp at h2
      | succ f₂ =>
        simp only [pySplitAux]
        by_cases hc : (!sep.isEmpty && sep.isPrefixOf (c :: rest)) = true
        · rw [if_pos hc, if_pos hc]
          have hsep : 0 < sep.length := by
            rcases sep with _ | ⟨a, s'⟩
            · simp at hc
            · simp
          simp only [List.length_cons] at h1 h2
          refine congrArg _ (ih f₂ _ [] ?_ ?_) <;> (simp only [List.length_drop, List.length_cons]; omega)
        · rw [if_neg hc, if_neg hc]
          simp only [List.length_cons] at h1 h2
          exact ih f₂ rest (c :: acc) (by omega) (by omega)

/-- Scanning past a segment that holds no separator occurrence: the scan
moves the whole segment into the accumulator.  The side condition rules out
an occurrence straddling the boundary between the segment and the rest. -/
lemma pySplitAux_skip :
    ∀ (d rest acc : Str) (fuel : Nat), (d ++ rest).length ≤ fuel →
      containsSeq sepStr d = false →
      (d.getLast? = some '_' → rest.head? ≠ some '_') →
      pySplitAux sepStr fuel (d ++ rest) acc =
        pySplitAux sepStr rest.length rest (d.reverse ++ acc) := by
  intro d
  induction d with
  | nil =>
    intro rest acc fuel hf _ _
    simpa using pySplitAux_fuel sepStr fuel rest.length rest acc (by simpa using hf) le_rfl
  | cons c d' ih =>
    intro rest acc fuel hf hcs hlast
    obtain ⟨hp, hcs'⟩ := containsSeq_false_cons hcs
    cases fuel with
    | zero => simp at hf
    | succ f =>
      have hnp : sepStr.isPrefixOf (c :: (d' ++ rest)) = false := by
        by_contra hcon
        rw [Bool.not_eq_false, sepStr_isPrefixOf_iff] at hcon
        obtain ⟨t, ht⟩ := hcon
        obtain ⟨hc, hrest⟩ : c = '_' ∧ d' ++ rest = '_' :: t := by
          constructor <;> [exact (List.cons_eq_cons.mp ht).1;
            exact (List.cons_eq_cons.mp ht).2]
        cases d' with
        | nil =>
          refine hlast ?_ ?_
          · simp [hc]
          · simpa using congrArg List.head? hrest
        | cons e d'' =>
          have he : e = '_' := by simpa using congrArg List.head? hrest
          have : sepStr.isPrefixOf (c :: e :: d'') = true := by
            simp [sepStr, List.isPrefixOf, hc, he]
          simp [this] at hp
      rw [show (c :: d') ++ rest = c :: (d' ++ rest) from rfl]
      simp only [pySplitAux]
      rw [if_neg (by simp [hnp])]
      rw [ih rest (c :: acc) f (by simp at hf ⊢; omega) hcs' ?_]
      · simp
      · intro hd'
        cases d' with
        | nil => simp at hd'
        | cons e d'' =>
          exact hlast (by simpa using hd')

/-- Cutting at a separator occurrence sitting at the front. -/
lemma pySplitAux_cut (t acc : Str) (fuel : Nat) (hf : (sepStr ++ t).length ≤ fuel) :
    pySplitAux sepStr fuel (sepStr ++ t) acc =
      acc.reverse :: pySplitAux sepStr t.length t [] := by
  cases fuel with
  | zero => simp [sepStr] at hf
  | succ f =>
    rw [show sepStr ++ t = '_' :: '_' :: t from rfl]
    simp only [pySplitAux]
    rw [if_pos (by simp [sepStr, List.isPrefixOf])]
    have hdrop : List.drop sepStr.length ('_' :: '_' :: t) = t := by simp [sepStr]
    rw [hdrop]
    refine congrArg _ (pySplitAux_fuel sepStr f t.length t [] ?_ le_rfl)
    simp [sepStr] at hf
    omega

/-- A string holding no separator occurrence splits into a single piece. -/
lemma pySplitAux_noOcc :
    ∀ (t acc : Str) (fuel : Nat), t.length ≤ fuel → containsSeq sepStr t = false →
      pySplitAux sepStr fuel t acc = [acc.reverse ++ t] := by
  intro t
  induction t with
  | nil => intro acc fuel _ _; cases fuel <;> simp [pySplitAux]
  | cons c rest ih =>
    intro acc fuel hf hcs
    obtain ⟨h1, h2⟩ := containsSeq_false_cons hcs
    cases fuel with
    | zero => simp at hf
    | succ f =>
      simp only [pySplitAux]
      rw [if_neg (by simp [h1])]
      rw [ih (c :: acc) f (by simp at hf; omega) h2]
      simp

lemma containsSeq_cons_ne (c : Char) (rest : Str) (h : ('_' == c) = false) :
    containsSeq sepStr (c :: rest) = containsSeq sepStr rest := by
  simp [containsSeq, sepStr, List.isPrefixOf, h]

lemma containsSeq_pageTag_prepend (p : Str) :
    containsSeq sepStr (pageTag ++ p) = containsSeq sepStr p := by
  show containsSeq sepStr ('p' :: 'a' :: 'g' :: 'e' :: '-' :: p) = _
  rw [containsSeq_cons_ne _ _ (by decide), containsSeq_cons_ne _ _ (by decide),
    containsSeq_cons_ne _ _ (by decide), containsSeq_cons_ne _ _ (by decide),
    containsSeq_cons_ne _ _ (by decide)]

/-- Splitting the encoded correlation identifier: the document piece comes
off whole whenever the document holds no separator and does not end in an
underscore; no assumption on the page is needed. -/
lemma pySplit_encode_head (d p : Str) (hd : containsSeq sepStr d = false)
    (hl : d.getLast? ≠ some '_') :
    pySplit sepStr (makeCustomId d p) =
      d :: pySplitAux sepStr (pageTag ++ p).length (pageTag ++ p) [] := by
  unfold pySplit makeCustomId
  rw [List.append_assoc, List.append_assoc,
    pySplitAux_skip d (sepStr ++ (pageTag ++ p)) [] _ le_rfl hd (fun h => absurd h hl),
    List.append_nil,
    pySplitAux_cut (pageTag ++ p) d.reverse _ le_rfl]
  simp

/-- Full split of the encoded correlation identifier. -/
lemma pySplit_encode (d p : Str) (hd : containsSeq sepStr d = false)
    (hl : d.getLast? ≠ some '_') (hp : containsSeq sepStr p = false) :
    pySplit sepStr (makeCustomId d p) = [d, pageTag ++ p] := by
  rw [pySplit_encode_head d p hd hl,
    pySplitAux_noOcc (pageTag ++ p) [] _ le_rfl (by rw [containsSeq_pageTag_prepend]; exact hp)]
  simp

lemma pyReplaceAux_noOcc (old : Str) :
    ∀ (s : Str) (fuel : Nat), s.length ≤ fuel → containsSeq old s = false →
      pyReplaceAux old [] fuel s = s := by
  intro s
  induction s with
  | nil => intro fuel _ _; cases fuel <;> simp [pyReplaceAux]
  | cons c rest ih =>
    intro fuel hf hcs
    obtain ⟨h1, h2⟩ := containsSeq_false_cons hcs
    cases fuel with
    | zero => simp at hf
    | succ f =>
      simp only [pyReplaceAux]
      rw [if_neg (by simp [h1])]
      rw [ih f (by simp at hf; omega) h2]

lemma pyReplace_pageTag_append (p : Str) (hp : containsSeq pageTag p = false) :
    pyReplace pageTag [] (pageTag ++ p) = p := by
  unfold pyReplace
  have hlen : (pageTag ++ p).length = p.length + 5 := by simp [pageTag]
  rw [hlen]
  show pyReplaceAux pageTag [] (p.length + 5) ('p' :: 'a' :: 'g' :: 'e' :: '-' :: p) = p
  simp only [pyReplaceAux]
  rw [if_pos ?hc]
  case hc =>
    rw [show ('p' :: 'a' :: 'g' :: 'e' :: '-' :: p) = pageTag ++ p from rfl,
      isPrefixOf_append_self]
    rfl
  have hdrop : List.drop pageTag.length ('p' :: 'a' :: 'g' :: 'e' :: '-' :: p) = p := by
    simp [pageTag]
  rw [hdrop]
  simpa using pyReplaceAux_noOcc pageTag p (p.length + 4) (by omega) hp

/-- Decoding inverts encoding under the separator-freedom conditions. -/
lemma decode_encode (d p : Str) (hd : containsSeq sepStr d = false)
    (hl : d.getLast? ≠ some '_') (hp2 : containsSeq sepStr p = false)
    (hpt : containsSeq pageTag p = false) :
    decodeCustomId (makeCustomId d p) = some (d, p) := by
  unfold decodeCustomId
  rw [pySplit_encode d p hd hl hp2]
  simp [pyReplace_pageTag_append p hpt]

/-- The encoding is injective as soon as the document identifiers are clean;
no condition on the pages is needed. -/
lemma makeCustomId_inj {d1 p1 d2 p2 : Str}
    (hd1 : containsSeq sepStr d1 = false) (hl1 : d1.getLast? ≠ some '_')
    (hd2 : containsSeq sepStr d2 = false) (hl2 : d2.getLast? ≠ some '_')
    (h : makeCustomId d1 p1 = makeCustomId d2 p2) : d1 = d2 ∧ p1 = p2 := by
  have hsplit := congrArg (pySplit sepStr) h
  rw [pySplit_encode_head d1 p1 hd1 hl1, pySplit_encode_head d2 p2 hd2 hl2] at hsplit
  have hdd : d1 = d2 := (List.cons_eq_cons.mp hsplit).1
  refine ⟨hdd, ?_⟩
  subst hdd
  unfold makeCustomId at h
  exact List.append_cancel_left h

lemma containsSeq_iff_infix (sep : Str) : ∀ s : Str, containsSeq sep s = true ↔ sep <:+: s := by
  intro s
  induction s with
  | nil => simp [containsSeq, List.infix_nil, List.isEmpty_iff]
  | cons c rest ih =>
    rw [containsSeq, Bool.or_eq_true, ih, List.infix_cons_iff,
      List.isPrefixOf_iff_prefix]

lemma containsSeq_eq_false_iff (sep s : Str) : containsSeq sep s = false ↔ ¬ sep <:+: s := by
  rw [← containsSeq_iff_infix]
  cases h : containsSeq sep s <;> simp

/-- Auxiliary step for injectivity of the encoding: when one document is a
prefix of the other and the longer one holds no separator occurrence, the
two documents coincide.  The extension t of the shorter document is a
prefix of the suffix two-underscores-page-marker-page: two or more
characters would put a separator occurrence inside the longer document,
and exactly one character forces the marker character p to equal an
underscore. -/
lemma makeCustomId_inj_aux {d1 p1 d2 p2 : Str}
    (hd2 : containsSeq sepStr d2 = false) (hpre : d1 <+: d2)
    (h : makeCustomId d1 p1 = makeCustomId d2 p2) : d1 = d2 := by
  obtain ⟨t, rfl⟩ := hpre
  simp only [makeCustomId, List.append_assoc] at h
  have h' : sepStr ++ (pageTag ++ p1) = t ++ (sepStr ++ (pageTag ++ p2)) :=
    List.append_cancel_left h
  match t with
  | [] => simp
  | [c] =>
    have h'' : ('_' :: '_' :: 'p' :: 'a' :: 'g' :: 'e' :: '-' :: p1 : Str) =
        c :: '_' :: '_' :: 'p' :: 'a' :: 'g' :: 'e' :: '-' :: p2 := h'
    simp only [List.cons.injEq] at h''
    exact absurd h''.2.2.1 (by decide)
  | c1 :: c2 :: t' =>
    exfalso
    have h'' : ('_' :: '_' :: 'p' :: 'a' :: 'g' :: 'e' :: '-' :: p1 : Str) =
        c1 :: c2 :: (t' ++ ('_' :: '_' :: 'p' :: 'a' :: 'g' :: 'e' :: '-' :: p2)) := h'
    simp only [List.cons.injEq] at h''
    obtain ⟨rfl, rfl, -⟩ := h''
    have hocc : containsSeq sepStr (d1 ++ ('_' :: '_' :: t')) = true :=
      ( containsSeq_iff_infix sepStr _).mpr ⟨d1, t', by simp [sepStr]⟩
    simp [hocc] at hd2

/-- The encoding is injective as soon as both document identifiers hold no
separator occurrence; no condition on the pages and no condition on the
documents' last characters is needed. -/
lemma makeCustomId_inj_noSep {d1 p1 d2 p2 : Str}
    (hd1 : containsSeq sepStr d1 = false) (hd2 : containsSeq sepStr d2 = false)
    (h : makeCustomId d1 p1 = makeCustomId d2 p2) : d1 = d2 ∧ p1 = p2 := by
  have h1 : d1 <+: makeCustomId d1 p1 := by
    simp only [makeCustomId, List.append_assoc]
    exact List.prefix_append d1 _
  have h2 : d2 <+: makeCustomId d1 p1 := by
    rw [h]
    simp only [makeCustomId, List.append_assoc]
    exact List.prefix_append d2 _
  have hdd : d1 = d2 := by
    rcases List.prefix_or_prefix_of_prefix h1 h2 with hp | hp
    · exact makeCustomId_inj_aux hd2 hp h
    · exact (makeCustomId_inj_aux hd1 hp h.symm).symm
  subst hdd
  exact ⟨rfl, List.append_cancel_left h⟩

/-! Association-list model of a Python dict: insertion-ordered, an update
keeps the key at its original position, a fresh key is appended at the
end. -/

def upsert {α : Type} (k : Str) (v : α) : List (Str × α) → List (Str × α)
  | [] => [(k, v)]
  | kv :: rest => if kv.1 = k then (k, v) :: rest else kv :: upsert k v rest

def alookup {α : Type} (k : Str) : List (Str × α) → Option α
  | [] => none
  | kv :: rest => if kv.1 = k then some kv.2 else alookup k rest

lemma alookup_upsert_self {α : Type} (k : Str) (v : α) :
    ∀ l : List (Str × α), alookup k (upsert k v l) = some v
  | [] => by simp [upsert, alookup]
  | kv :: rest => by
    by_cases h : kv.1 = k
    · simp [upsert, alookup, h]
    · simp [upsert, alookup, h, alookup_upsert_self k v rest]

lemma alookup_upsert_ne {α : Type} {k q : Str} (v : α) (h : k ≠ q) :
    ∀ l : List (Str × α), alookup q (upsert k v l) = alookup q l
  | [] => by simp [upsert, alookup, h]
  | kv :: rest => by
    by_cases h' : kv.1 = k
    · simp [upsert, alookup, h', h]
    · simp [upsert, alookup, h', alookup_upsert_ne v h rest]

lemma alookup_eq_none_iff {α : Type} (k : Str) :
    ∀ l : List (Str × α), alookup k l = none ↔ k ∉ l.map Prod.fst
  | [] => by simp [alookup]
  | kv :: rest => by
    by_cases h : kv.1 = k
    · simp [alookup, h]
    · simp [alookup, h, alookup_eq_none_iff k rest, Ne.symm h]

lemma mem_of_alookup {α : Type} {k : Str} {v : α} :
    ∀ {l : List (Str × α)}, alookup k l = some v → (k, v) ∈ l
  | [], h => by simp [alookup] at h
  | kv :: rest, hl => by
    obtain ⟨k1, v1⟩ := kv
    by_cases h : k1 = k
    · subst h
      simp [alookup] at hl
      subst hl
      exact List.mem_cons_self _ _
    · simp only [alookup, if_neg h] at hl
      exact List.mem_cons_of_mem _ (mem_of_alookup hl)

lemma upsert_of_fresh {α : Type} {k : Str} (v : α) :
    ∀ {l : List (Str × α)}, k ∉ l.map Prod.fst → upsert k v l = l ++ [(k, v)]
  | [], _ => by simp [upsert]
  | kv :: rest, h => by
    simp only [List.map_cons, List.mem_cons] at h
    push_neg at h
    have h1 : ¬ kv.1 = k := fun hh => h.1 hh.symm
    simp [upsert, h1, upsert_of_fresh v h.2]

/-- Folding dict assignments over entries with pairwise fresh and new keys
appends them in order. -/
lemma foldl_upsert_of_nodup {α β : Type} (g : Str × β → α) :
    ∀ (l : List (Str × β)) (acc : List (Str × α)),
      (l.map Prod.fst).Nodup → (∀ k ∈ l.map Prod.fst, k ∉ acc.map Prod.fst) →
      l.foldl (fun a kv => upsert kv.1 (g kv) a) acc =
        acc ++ l.map (fun kv => (kv.1, g kv))
  | [], acc, _, _ => by simp
  | kv :: rest, acc, hnd, hfresh => by
    simp only [List.foldl_cons]
    rw [upsert_of_fresh (g kv) (hfresh kv.1 (by simp))]
    simp only [List.map_cons, List.nodup_cons] at hnd
    rw [foldl_upsert_of_nodup g rest (acc ++ [(kv.1, g kv)]) hnd.2 ?_]
    · simp
    · intro q hq
      simp only [List.map_append, List.mem_append, List.map_cons]
      push_neg
      refine ⟨hfresh q (by simp [hq]), ?_⟩
      intro hmem
      simp only [List.map_nil, List.mem_singleton] at hmem
      subst hmem
      exact hnd.1 hq

/-! The Context Builder, prepare_context_for_llm of lines 27 to 49. -/

/-- An extracted page element as consumed by prepare_context_for_llm: a
JSON object with the four fields the code reads via .get. -/
structure Element where
  category : Option Str
  content : Option Str
  table_analysis : Option Str
  vision_analysis : Option Str
deriving DecidableEq

/-- The text contributed by one element, lines 42 to 47: a table or image
element contributes its tagged analysis (empty when absent), any other
element contributes its content (empty when absent). -/
def elementText (it : Element) : Str :=
  if it.category = some ("Table".toList) then
    "Table: ".toList ++ it.table_analysis.getD []
  else if it.category = some ("Image".toList) then
    "Image: ".toList ++ it.vision_analysis.getD []
  else
    it.content.getD []

/-- Python " ".join. -/
def joinSpace : List Str → Str
  | [] => []
  | [p] => p
  | p :: q :: rest => p ++ ' ' :: joinSpace (q :: rest)

/-- The page header seeded into the parts list at line 40. -/
def pageLabel (page : Str) : Str := "Page ".toList ++ page ++ [':']

/-- The parts list built by the element loop of lines 41 to 47, starting
from the seeded label. -/
def buildParts (items : List Element) (parts : List Str) : List Str :=
  match items with
  | [] => parts
  | it :: rest => buildParts rest (parts ++ [elementText it])

/-- Model of prepare_context_for_llm, lines 37 to 49: walk the page
entries, assigning the joined parts into the contexts dict. -/
def prepare_context_for_llm (pdf_data : List (Str × List Element)) : List (Str × Str) :=
  pdf_data.foldl (fun contexts pg =>
    upsert pg.1 (joinSpace (buildParts pg.2 [pageLabel pg.1])) contexts) []

lemma buildParts_eq (items : List Element) :
    ∀ parts, buildParts items parts = parts ++ items.map elementText := by
  induction items with
  | nil => simp [buildParts]
  | cons it rest ih => intro parts; simp [buildParts, ih]

/-- Characterisation of the Context Builder on a genuine mapping: one
output entry per page, in order, holding the label followed by the
effective texts of the elements in their original order. -/
lemma prepare_context_eq (pdf_data : List (Str × List Element))
    (h : (pdf_data.map Prod.fst).Nodup) :
    prepare_context_for_llm pdf_data =
      pdf_data.map (fun pg => (pg.1, joinSpace (pageLabel pg.1 :: pg.2.map elementText))) := by
  unfold prepare_context_for_llm
  rw [foldl_upsert_of_nodup (fun pg => joinSpace (buildParts pg.2 [pageLabel pg.1]))
    pdf_data [] h (by simp)]
  simp [buildParts_eq]

/-! The Batch Request Compiler, prepare_batch_file of lines 52 to 83. -/

structure RequestBody where
  model : Str
  systemMessage : Str
  userMessage : Str
  maxCompletionTokens : Nat
deriving DecidableEq

structure BatchRequest where
  custom_id : Str
  body : RequestBody
deriving DecidableEq

/-- The metadata skeleton built at compile time: document to page to
per-page status string (the singleton wrapper object of line 62 holding
the single key pages is flattened away). -/
abbrev BatchMetadata := List (Str × List (Str × Str))

/-- The request object of lines 65 to 75 for one page context. -/
def mkRequest (system_prompt model pdfName : Str) (pc : Str × Str) : BatchRequest :=
  { custom_id := makeCustomId pdfName pc.1,
    body := { model := model, systemMessage := system_prompt,
              userMessage := pc.2, maxCompletionTokens := 6000 } }

/-- One step of the outer document loop of lines 60 to 78: build the page
contexts, append one request per context, and record the queued page
statuses in the metadata skeleton. -/
def pbStep (system_prompt model : Str) (acc : List BatchRequest × BatchMetadata)
    (doc : Str × List (Str × List Element)) : List BatchRequest × BatchMetadata :=
  let contexts := prepare_context_for_llm doc.2
  let inner := contexts.foldl
    (fun bp pc => (bp.1 ++ [mkRequest system_prompt model doc.1 pc],
      upsert pc.1 ("queued".toList) bp.2)) (acc.1, [])
  (inner.1, upsert doc.1 inner.2 acc.2)

/-- Model of prepare_batch_file, lines 52 to 83, returning the request
lines and the metadata skeleton. -/
def prepare_batch_file (pdf_data : List (Str × List (Str × List Element)))
    (system_prompt model : Str) : List BatchRequest × BatchMetadata :=
  pdf_data.foldl (pbStep system_prompt model) ([], [])

lemma inner_fold_fst (sp model dn : Str) :
    ∀ (contexts : List (Str × Str)) (init : List BatchRequest) (m : List (Str × Str)),
      (contexts.foldl (fun bp pc => (bp.1 ++ [mkRequest sp model dn pc],
        upsert pc.1 ("queued".toList) bp.2)) (init, m)).1 =
        init ++ contexts.map (mkRequest sp model dn)
  | [], init, m => by simp
  | pc :: rest, init, m => by
    simp only [List.foldl_cons, List.map_cons]
    rw [inner_fold_fst sp model dn rest (init ++ [mkRequest sp model dn pc]) _]
    simp

lemma pbStep_fst (sp model : Str) (acc : List BatchRequest × BatchMetadata)
    (doc : Str × List (Str × List Element)) :
    (pbStep sp model acc doc).1 =
      acc.1 ++ (prepare_context_for_llm doc.2).map (mkRequest sp model doc.1) := by
  unfold pbStep
  exact inner_fold_fst sp model doc.1 (prepare_context_for_llm doc.2) acc.1 []

/-- The request lines of the compiled batch file: one request per page
context, documents in order. -/
lemma prepare_batch_file_fst (sp model : Str) :
    ∀ (pdf_data : List (Str × List (Str × List Element)))
      (acc : List BatchRequest × BatchMetadata),
      (pdf_data.foldl (pbStep sp model) acc).1 =
        acc.1 ++ pdf_data.flatMap
          (fun doc => (prepare_context_for_llm doc.2).map (mkRequest sp model doc.1))
  | [], acc => by simp
  | doc :: rest, acc => by
    simp only [List.foldl_cons, List.flatMap_cons]
    rw [prepare_batch_file_fst sp model rest (pbStep sp model acc doc), pbStep_fst]
    simp

/-- Injectivity of the encoding in the page argument alone. -/
lemma makeCustomId_inj_page (d : Str) : Function.Injective (fun p => makeCustomId d p) := by
  intro p q h
  simp only [makeCustomId] at h
  exact List.append_cancel_left h

/-- Line count of the compiled batch file on a genuine nested mapping:
one line per (document, page) pair. -/
lemma prepare_batch_file_length (pdf_data : List (Str × List (Str × List Element)))
    (sp model : Str) (h : ∀ doc ∈ pdf_data, (doc.2.map Prod.fst).Nodup) :
    (prepare_batch_file pdf_data sp model).1.length =
      (pdf_data.map (fun doc => doc.2.length)).sum := by
  unfold prepare_batch_file
  rw [prepare_batch_file_fst sp model pdf_data ([], [])]
  simp only [List.nil_append, List.length_flatMap]
  congr 1
  refine List.map_congr_left ?_
  intro doc hdoc
  simp [prepare_context_eq doc.2 (h doc hdoc)]

/-- The correlation identifiers of the compiled lines. -/
lemma prepare_batch_file_ids (sp model : Str)
    (pdf_data : List (Str × List (Str × List Element)))
    (hpages : ∀ doc ∈ pdf_data, (doc.2.map Prod.fst).Nodup) :
    (prepare_batch_file pdf_data sp model).1.map BatchRequest.custom_id =
      pdf_data.flatMap (fun doc => doc.2.map (fun pg => makeCustomId doc.1 pg.1)) := by
  unfold prepare_batch_file
  rw [prepare_batch_file_fst sp model pdf_data ([], [])]
  simp only [List.nil_append, List.map_flatMap]
  refine List.flatMap_congr ?_
  intro doc hdoc
  rw [prepare_context_eq doc.2 (hpages doc hdoc)]
  simp [mkRequest]

/-- Pairwise distinctness of the correlation identifiers: separator-free
document identifiers suffice. -/
lemma prepare_batch_file_ids_nodup (sp model : Str)
    (pdf_data : List (Str × List (Str × List Element)))
    (hkeys : (pdf_data.map Prod.fst).Nodup)
    (hpages : ∀ doc ∈ pdf_data, (doc.2.map Prod.fst).Nodup)
    (hclean : ∀ doc ∈ pdf_data, containsSeq sepStr doc.1 = false) :
    ((prepare_batch_file pdf_data sp model).1.map BatchRequest.custom_id).Nodup := by
  rw [prepare_batch_file_ids sp model pdf_data hpages]
  rw [List.nodup_flatMap]
  constructor
  · intro doc hdoc
    have : doc.2.map (fun pg => makeCustomId doc.1 pg.1) =
        (doc.2.map Prod.fst).map (fun p => makeCustomId doc.1 p) := by
      simp [List.map_map]
    rw [this]
    exact List.Nodup.map (makeCustomId_inj_page doc.1) (hpages doc hdoc)
  · have hpw : List.Pairwise (fun a b => a.1 ≠ b.1) pdf_data := by
      rw [← List.pairwise_map (f := Prod.fst) (R := fun a b => a ≠ b)]
      exact hkeys
    refine List.Pairwise.imp_of_mem ?_ hpw
    intro doc1 doc2 h1 h2 hne
    intro x hx1 hx2
    simp only [List.mem_map] at hx1 hx2
    obtain ⟨pg1, -, hid1⟩ := hx1
    obtain ⟨pg2, -, hid2⟩ := hx2
    exact hne (makeCustomId_inj_noSep (hclean doc1 h1) (hclean doc2 h2)
      (hid1.trans hid2.symm)).1

/-! The Reconciler and the Driver: check_batch_status of lines 121 to 167,
submit_batch_job of lines 86 to 118 and process_all_pdfs of lines 170
to 221.  File contents, the external service and the clock are modelled
explicitly; network calls that may raise are modelled as Option values
with none standing for a raised exception. -/

/-- A JSON value, used for the opaque response payloads carried through
reconciliation. -/
inductive JsonVal where
  | null : JsonVal
  | bool : Bool → JsonVal
  | num : Int → JsonVal
  | str : Str → JsonVal
  | arr : List JsonVal → JsonVal
  | obj : List (Str × JsonVal) → JsonVal

/-- The default payload of line 155: res.get of the response key with an
empty-object default. -/
def emptyObjVal : JsonVal := .obj []

/-- One parsed line of the downloaded result file, line 147: a JSON object
with a mandatory custom_id key (a missing key raises at line 150,
modelled by none) and an optional response key. -/
structure ResLine where
  custom_id : Option Str
  response : Option JsonVal

/-- The persisted Job Record of lines 104 to 110; batch_id is optional
because check_batch_status guards against its absence at line 134. -/
structure BatchInfo where
  batch_id : Option Str
  input_file_id : Str
  created_at : Str
  status : Str
  metadata : BatchMetadata
deriving DecidableEq

/-- The durable state the module touches: the Job Record file of the state
directory (none when the file does not exist) and the artifact files of
the output directory, keyed by file name. -/
structure FsState where
  batchInfo : Option BatchInfo
  outputs : List (Str × List (Str × JsonVal))

/-- What the external service reports for the retrieve call of line 137. -/
structure RemoteBatch where
  status : Str
  output_file_id : Option Str

/-- The external service as seen by one invocation: the retrieve result
and the downloaded, parsed content of the output file, each none when the
corresponding call raises. -/
structure ServiceView where
  retrieve : Option RemoteBatch
  content : Option (List ResLine)

/-- Python truthiness of the optional output file handle at line 143. -/
def truthyHandle : Option Str → Bool
  | none => false
  | some s => !s.isEmpty

/-- The payload taken from a result line at line 155. -/
def linePayload (l : ResLine) : JsonVal := l.response.getD emptyObjVal

/-- The decoded (document, page) key of a result line, lines 150 to 152;
none models a raised exception. -/
def lineKey (l : ResLine) : Option (Str × Str) :=
  match l.custom_id with
  | none => none
  | some cid => decodeCustomId cid

/-- Assignment of one decoded result into the nested result dict,
lines 153 to 155. -/
def insertResult (pdf page : Str) (v : JsonVal) :
    List (Str × List (Str × JsonVal)) → List (Str × List (Str × JsonVal))
  | [] => [(pdf, [(page, v)])]
  | e :: rest =>
    if e.1 = pdf then (e.1, upsert page v e.2) :: rest
    else e :: insertResult pdf page v rest

/-- The grouping loop of lines 148 to 155; none models a raised
exception, which aborts the call before any artifact is written. -/
def groupResultsAux : List (Str × List (Str × JsonVal)) → List ResLine →
    Option (List (Str × List (Str × JsonVal)))
  | acc, [] => some acc
  | acc, l :: rest =>
    match lineKey l with
    | none => none
    | some dp => groupResultsAux (insertResult dp.1 dp.2 (linePayload l) acc) rest

def groupResults (lines : List ResLine) : Option (List (Str × List (Str × JsonVal))) :=
  groupResultsAux [] lines

/-- The final path component, as pathlib computes the name. -/
def pathName (p : Str) : Str := (pySplit ['/'] p).getLastD []

/-- pathlib's stem, used at line 157: the name with its last suffix
removed, where a suffix requires a dot at a position other than the first
and the last character of the name. -/
def pathStem (p : Str) : Str :=
  let n := pathName p
  match n.reverse.findIdx? (fun c => c == '.') with
  | none => n
  | some j =>
    let i := n.length - 1 - j
    if 0 < i ∧ i < n.length - 1 then n.take i else n

/-- The artifact file name of line 157. -/
def artifactName (pdf : Str) : Str := pathStem pdf ++ "_metadata.json".toList

/-- The artifact writes of lines 156 to 159, applied to the files of the
output directory as whole-file overwrites in dict order. -/
def writeOutputs (g : List (Str × List (Str × JsonVal)))
    (files : List (Str × List (Str × JsonVal))) : List (Str × List (Str × JsonVal)) :=
  g.foldl (fun fs e => upsert (artifactName e.1) e.2 fs) files

/-- Model of check_batch_status, lines 121 to 167, returning the new
durable state and the status string handed back to the caller. -/
def check_batch_status (sv : ServiceView) (st : FsState) : FsState × Str :=
  match st.batchInfo with
  | none => (st, "not_found".toList)
  | some bi =>
    match bi.batch_id with
    | none => (st, "error".toList)
    | some bid =>
      if bid.isEmpty then (st, "error".toList)
      else
        match sv.retrieve with
        | none => (st, "error".toList)
        | some rb =>
          let st' : FsState := { st with batchInfo := some { bi with status := rb.status } }
          if rb.status = "completed".toList ∧ truthyHandle rb.output_file_id = true then
            match sv.content with
            | none => (st', "error".toList)
            | some lines =>
              match groupResults lines with
              | none => (st', "error".toList)
              | some g =>
                ({ batchInfo := none, outputs := writeOutputs g st'.outputs },
                  "completed_and_processed".toList)
          else (st', rb.status)

/-- The submission collaborators of submit_batch_job: the upload result
and the job-creation result (none when the call raises), whether
persisting the record file succeeds, and the clock reading used for
created_at. -/
structure SubmitOracle where
  upload : Option Str
  create : Option Str
  persistOk : Bool
  now : Str

/-- Model of submit_batch_job, lines 86 to 118: upload the batch file,
create the job, persist the Job Record; any raise is caught and the
sentinel none is returned with nothing persisted. -/
def submit_batch_job (so : SubmitOracle) (metadata : BatchMetadata) (st : FsState) :
    FsState × Option Str :=
  match so.upload with
  | none => (st, none)
  | some fid =>
    match so.create with
    | none => (st, none)
    | some bid =>
      if so.persistOk then
        ({ st with batchInfo := some ⟨some bid, fid, so.now, "submitted".toList, metadata⟩ },
          some bid)
      else (st, none)

/-- The already-processed filter of lines 202 to 206: drop every document
whose artifact file name already exists in the output directory. -/
def filterProcessed (analyzed : List (Str × List (Str × List Element)))
    (st : FsState) : List (Str × List (Str × List Element)) :=
  analyzed.filter (fun doc => decide (artifactName doc.1 ∉ st.outputs.map Prod.fst))

/-- The submission phase of process_all_pdfs, lines 197 to 220: filter the
work queue, stop when it is empty, otherwise compile and submit.  The
returned Bool records whether submit_batch_job was invoked. -/
def submitPhase (so : SubmitOracle) (analyzed : List (Str × List (Str × List Element)))
    (system_prompt model : Str) (st : FsState) : FsState × Bool :=
  let remaining := filterProcessed analyzed st
  if remaining.isEmpty then (st, false)
  else
    let pb := prepare_batch_file remaining system_prompt model
    ((submit_batch_job so pb.2 st).1, true)

/-- Model of process_all_pdfs, lines 170 to 221: when a Job Record exists,
check it first; stop on the completed pair of statuses and on the
in-flight pair; otherwise delete the record and fall through to
submission. -/
def process_all_pdfs (sv : ServiceView) (so : SubmitOracle)
    (analyzed : List (Str × List (Str × List Element)))
    (system_prompt model : Str) (st : FsState) : FsState × Bool :=
  match st.batchInfo with
  | some _ =>
    let r := check_batch_status sv st
    if r.2 = "completed".toList ∨ r.2 = "completed_and_processed".toList then (r.1, false)
    else if r.2 = "submitted".toList ∨ r.2 = "in_progress".toList then (r.1, false)
    else submitPhase so analyzed system_prompt model { r.1 with batchInfo := none }
  | none => submitPhase so analyzed system_prompt model st

/-! Lemmas about the grouping loop of the Reconciler. -/

/-- The decoded page-payload pairs of the result lines belonging to one
document, in file order. -/
def pagesFor (D : Str) (lines : List ResLine) : List (Str × JsonVal) :=
  lines.filterMap (fun l =>
    match lineKey l with
    | some dp => if dp.1 = D then some (dp.2, linePayload l) else none
    | none => none)

/-- Folding dict assignments of page payloads over one document map. -/
def applyPages (m : List (Str × JsonVal)) (pvs : List (Str × JsonVal)) :
    List (Str × JsonVal) :=
  pvs.foldl (fun m pv => upsert pv.1 pv.2 m) m

/-- One grouping step when decoding succeeds. -/
def insertLine (acc : List (Str × List (Str × JsonVal))) (l : ResLine) :
    List (Str × List (Str × JsonVal)) :=
  match lineKey l with
  | some dp => insertResult dp.1 dp.2 (linePayload l) acc
  | none => acc

lemma groupResultsAux_eq_foldl :
    ∀ (lines : List ResLine) (acc), (∀ l ∈ lines, (lineKey l).isSome = true) →
      groupResultsAux acc lines = some (lines.foldl insertLine acc)
  | [], acc, _ => rfl
  | l :: rest, acc, h => by
    obtain ⟨dp, hdp⟩ := Option.isSome_iff_exists.mp (h l (by simp))
    simp only [groupResultsAux, hdp, List.foldl_cons, insertLine]
    exact groupResultsAux_eq_foldl rest _ (fun x hx => h x (by simp [hx]))

lemma alookup_insertResult_self (pdf page : Str) (v : JsonVal) :
    ∀ acc, alookup pdf (insertResult pdf page v acc) =
      some (upsert page v ((alookup pdf acc).getD []))
  | [] => by simp [insertResult, alookup, upsert]
  | e :: rest => by
    by_cases h : e.1 = pdf
    · simp [insertResult, h, alookup]
    · simp [insertResult, h, alookup, alookup_insertResult_self pdf page v rest]

lemma alookup_insertResult_ne {pdf q : Str} (page : Str) (v : JsonVal) (h : ¬ pdf = q) :
    ∀ acc, alookup q (insertResult pdf page v acc) = alookup q acc
  | [] => by simp [insertResult, alookup, h]
  | e :: rest => by
    by_cases h' : e.1 = pdf
    · simp only [insertResult, if_pos h']
      simp only [alookup]
      rw [if_neg (by rw [h']; exact h), if_neg (by rw [h']; exact h)]
    · simp [insertResult, h', alookup, alookup_insertResult_ne page v h rest]

lemma alookup_foldl_insertLine_some {D : Str} :
    ∀ (lines : List ResLine) (acc) (m), alookup D acc = some m →
      alookup D (lines.foldl insertLine acc) = some (applyPages m (pagesFor D lines))
  | [], _, _, h => by simpa [applyPages, pagesFor] using h
  | l :: rest, acc, m, h => by
    cases hk : lineKey l with
    | none =>
      simp only [List.foldl_cons, insertLine, hk]
      rw [alookup_foldl_insertLine_some rest acc m h]
      congr 1
      simp [pagesFor, hk]
    | some dp =>
      by_cases hD : dp.1 = D
      · simp only [List.foldl_cons, insertLine, hk]
        have hacc : alookup D (insertResult dp.1 dp.2 (linePayload l) acc) =
            some (upsert dp.2 (linePayload l) m) := by
          rw [← hD] at h ⊢
          rw [alookup_insertResult_self dp.1 dp.2 (linePayload l) acc, h]
          rfl
        rw [alookup_foldl_insertLine_some rest _ _ hacc]
        congr 1
        have hp : pagesFor D (l :: rest) = (dp.2, linePayload l) :: pagesFor D rest := by
          simp [pagesFor, hk, hD]
        rw [hp]
        rfl
      · simp only [List.foldl_cons, insertLine, hk]
        have hacc : alookup D (insertResult dp.1 dp.2 (linePayload l) acc) = some m := by
          rw [alookup_insertResult_ne dp.2 (linePayload l) hD acc]; exact h
        rw [alookup_foldl_insertLine_some rest _ _ hacc]
        congr 1
        simp [pagesFor, hk, hD]

lemma alookup_foldl_insertLine_none {D : Str} :
    ∀ (lines : List ResLine) (acc), alookup D acc = none →
      alookup D (lines.foldl insertLine acc) =
        if (pagesFor D lines).isEmpty then none
        else some (applyPages [] (pagesFor D lines))
  | [], _, h => by simpa [pagesFor] using h
  | l :: rest, acc, h => by
    cases hk : lineKey l with
    | none =>
      simp only [List.foldl_cons, insertLine, hk]
      rw [alookup_foldl_insertLine_none rest acc h]
      have hpe : pagesFor D (l :: rest) = pagesFor D rest := by simp [pagesFor, hk]
      rw [hpe]
    | some dp =>
      by_cases hD : dp.1 = D
      · simp only [List.foldl_cons, insertLine, hk]
        have hacc : alookup D (insertResult dp.1 dp.2 (linePayload l) acc) =
            some (upsert dp.2 (linePayload l) []) := by
          rw [← hD] at h ⊢
          rw [alookup_insertResult_self dp.1 dp.2 (linePayload l) acc, h]
          rfl
        rw [alookup_foldl_insertLine_some rest _ _ hacc]
        have hp : pagesFor D (l :: rest) = (dp.2, linePayload l) :: pagesFor D rest := by
          simp [pagesFor, hk, hD]
        rw [hp]
        simp [applyPages, upsert]
      · simp only [List.foldl_cons, insertLine, hk]
        have hacc : alookup D (insertResult dp.1 dp.2 (linePayload l) acc) = none := by
          rw [alookup_insertResult_ne dp.2 (linePayload l) hD acc]; exact h
        rw [alookup_foldl_insertLine_none rest _ hacc]
        have hpe : pagesFor D (l :: rest) = pagesFor D rest := by simp [pagesFor, hk, hD]
        rw [hpe]

lemma alookup_applyPages_not_mem {p : Str} :
    ∀ (pvs : List (Str × JsonVal)) (m), p ∉ pvs.map Prod.fst →
      alookup p (applyPages m pvs) = alookup p m
  | [], _, _ => rfl
  | pv :: pvs, m, h => by
    simp only [List.map_cons, List.mem_cons] at h
    push_neg at h
    simp only [applyPages, List.foldl_cons]
    rw [show pvs.foldl (fun m pv => upsert pv.1 pv.2 m) (upsert pv.1 pv.2 m) =
      applyPages (upsert pv.1 pv.2 m) pvs from rfl]
    rw [alookup_applyPages_not_mem pvs _ h.2]
    exact alookup_upsert_ne pv.2 (fun hh => h.1 hh.symm) m

lemma alookup_applyPages_isSome {p : Str} :
    ∀ (pvs : List (Str × JsonVal)) (m),
      (alookup p (applyPages m pvs)).isSome = true ↔
        p ∈ pvs.map Prod.fst ∨ (alookup p m).isSome = true
  | [], m => by simp [applyPages]
  | pv :: pvs, m => by
    simp only [applyPages, List.foldl_cons, List.map_cons, List.mem_cons]
    rw [show pvs.foldl (fun m pv => upsert pv.1 pv.2 m) (upsert pv.1 pv.2 m) =
      applyPages (upsert pv.1 pv.2 m) pvs from rfl]
    rw [alookup_applyPages_isSome pvs (upsert pv.1 pv.2 m)]
    by_cases h : pv.1 = p
    · subst h
      simp [alookup_upsert_self]
    · rw [alookup_upsert_ne pv.2 h m]
      have : ¬ p = pv.1 := fun hh => h hh.symm
      tauto

lemma alookup_applyPages_nodup {p : Str} {v : JsonVal} :
    ∀ (pvs : List (Str × JsonVal)) (m), (pvs.map Prod.fst).Nodup → (p, v) ∈ pvs →
      alookup p (applyPages m pvs) = some v
  | [], _, _, hmem => by simp at hmem
  | pv :: pvs, m, hnd, hmem => by
    simp only [List.map_cons, List.nodup_cons] at hnd
    simp only [applyPages, List.foldl_cons]
    rw [show pvs.foldl (fun m pv => upsert pv.1 pv.2 m) (upsert pv.1 pv.2 m) =
      applyPages (upsert pv.1 pv.2 m) pvs from rfl]
    rcases List.mem_cons.mp hmem with heq | hmem'
    · obtain rfl := heq.symm
      rw [alookup_applyPages_not_mem pvs _ (by simpa using hnd.1)]
      exact alookup_upsert_self p v m
    · exact alookup_applyPages_nodup pvs _ hnd.2 hmem'

/-- A split into exactly two pieces makes decoding succeed. -/
lemma decode_isSome_of_two {cid : Str} (h : (pySplit sepStr cid).length = 2) :
    ∃ d p, decodeCustomId cid = some (d, p) := by
  cases hs : pySplit sepStr cid with
  | nil => rw [hs] at h; simp at h
  | cons a t =>
    cases t with
    | nil => rw [hs] at h; simp at h
    | cons b t2 =>
      cases t2 with
      | nil => exact ⟨a, pyReplace pageTag [] b, by simp [decodeCustomId, hs]⟩
      | cons c t3 => rw [hs] at h; simp at h

/-! Branch lemmas for check_batch_status. -/

lemma check_not_found {sv : ServiceView} {st : FsState} (h : st.batchInfo = none) :
    check_batch_status sv st = (st, "not_found".toList) := by
  simp [check_batch_status, h]

lemma check_no_id {sv : ServiceView} {st : FsState} {bi : BatchInfo}
    (h : st.batchInfo = some bi) (hid : bi.batch_id = none) :
    check_batch_status sv st = (st, "error".toList) := by
  simp [check_batch_status, h, hid]

lemma check_empty_id {sv : ServiceView} {st : FsState} {bi : BatchInfo} {bid : Str}
    (h : st.batchInfo = some bi) (hid : bi.batch_id = some bid)
    (hbe : bid.isEmpty = true) :
    check_batch_status sv st = (st, "error".toList) := by
  simp [check_batch_status, h, hid, hbe]

lemma check_retrieve_fail {sv : ServiceView} {st : FsState} {bi : BatchInfo} {bid : Str}
    (h : st.batchInfo = some bi) (hid : bi.batch_id = some bid)
    (hbe : bid.isEmpty = false) (hr : sv.retrieve = none) :
    check_batch_status sv st = (st, "error".toList) := by
  simp [check_batch_status, h, hid, hbe, hr]

/-- The status-refresh path: any retrieved status other than completed
with a truthy output handle only rewrites the status field of the record
and is returned as is. -/
lemma check_refresh {sv : ServiceView} {st : FsState} {bi : BatchInfo} {bid : Str}
    {rb : RemoteBatch}
    (h : st.batchInfo = some bi) (hid : bi.batch_id = some bid)
    (hbe : bid.isEmpty = false) (hr : sv.retrieve = some rb)
    (hnc : ¬ (rb.status = "completed".toList ∧ truthyHandle rb.output_file_id = true)) :
    check_batch_status sv st =
      ({ st with batchInfo := some { bi with status := rb.status } }, rb.status) := by
  simp [check_batch_status, h, hid, hbe, hr]
  intro h1 h2
  exact absurd ⟨h1, h2⟩ hnc

lemma check_content_fail {sv : ServiceView} {st : FsState} {bi : BatchInfo} {bid : Str}
    {rb : RemoteBatch}
    (h : st.batchInfo = some bi) (hid : bi.batch_id = some bid)
    (hbe : bid.isEmpty = false) (hr : sv.retrieve = some rb)
    (hc : rb.status = "completed".toList ∧ truthyHandle rb.output_file_id = true)
    (hco : sv.content = none) :
    check_batch_status sv st =
      ({ st with batchInfo := some { bi with status := rb.status } }, "error".toList) := by
  simp [check_batch_status, h, hid, hbe, hr, hc, hco]

lemma check_group_fail {sv : ServiceView} {st : FsState} {bi : BatchInfo} {bid : Str}
    {rb : RemoteBatch} {lines : List ResLine}
    (h : st.batchInfo = some bi) (hid : bi.batch_id = some bid)
    (hbe : bid.isEmpty = false) (hr : sv.retrieve = some rb)
    (hc : rb.status = "completed".toList ∧ truthyHandle rb.output_file_id = true)
    (hco : sv.content = some lines) (hg : groupResults lines = none) :
    check_batch_status sv st =
      ({ st with batchInfo := some { bi with status := rb.status } }, "error".toList) := by
  simp [check_batch_status, h, hid, hbe, hr, hc, hco, hg]

/-- The success path: results grouped, artifacts written, record deleted. -/
lemma check_success {sv : ServiceView} {st : FsState} {bi : BatchInfo} {bid : Str}
    {rb : RemoteBatch} {lines : List ResLine} {g : List (Str × List (Str × JsonVal))}
    (h : st.batchInfo = some bi) (hid : bi.batch_id = some bid)
    (hbe : bid.isEmpty = false) (hr : sv.retrieve = some rb)
    (hc : rb.status = "completed".toList ∧ truthyHandle rb.output_file_id = true)
    (hco : sv.content = some lines) (hg : groupResults lines = some g) :
    check_batch_status sv st =
      ({ batchInfo := none, outputs := writeOutputs g st.outputs }, "completed_and_processed".toList) := by
  simp [check_batch_status, h, hid, hbe, hr, hc, hco, hg]

/-! Claim theorems. -/

/-- Claim C2, counterexample: the document A_ holds no occurrence of the
separator and the page 1 holds no occurrence of the page marker, yet
encoding then decoding does not recover the pair: the separator match
shifts into the trailing underscore of the document, so decoding yields
the document A and the page _1. -/
theorem c2_counterexample :
    (¬ sepStr <:+: "A_".toList) ∧ (¬ pageTag <:+: "1".toList) ∧
    decodeCustomId (makeCustomId "A_".toList "1".toList) ≠
      some ("A_".toList, "1".toList) :=
  ⟨by decide, by decide, by decide⟩

/-- Claim C2 as amended: encoding as in prepare_batch_file then decoding
as in check_batch_status recovers exactly the original (document, page)
pair, provided the document holds no occurrence of the separator, the
page holds no occurrence of the page marker, and additionally the
document does not end in an underscore and the page holds no occurrence
of the separator. -/
theorem c2_roundtrip (d p : Str)
    (h1 : ¬ sepStr <:+: d) (h2 : ¬ pageTag <:+: p)
    (h3 : d.getLast? ≠ some '_') (h4 : ¬ sepStr <:+: p) :
    decodeCustomId (makeCustomId d p) = some (d, p) :=
  decode_encode d p ((containsSeq_eq_false_iff _ _).mpr h1) h3
    ((containsSeq_eq_false_iff _ _).mpr h4) ((containsSeq_eq_false_iff _ _).mpr h2)

/-- Witness for c2_roundtrip at a concrete clean pair. -/
theorem c2_roundtrip_witness :
    decodeCustomId (makeCustomId "A.pdf".toList "1".toList) =
      some ("A.pdf".toList, "1".toList) :=
  c2_roundtrip "A.pdf".toList "1".toList (by decide) (by decide) (by decide) (by decide)

/-- Input on which the compiler produces colliding correlation
identifiers from distinct (document, page) pairs. -/
def c7Input : List (Str × List (Str × List Element)) :=
  [("A__page-1".toList, [("2".toList, [])]),
   ("A".toList, [("1__page-2".toList, [])])]

/-- Claim C7, counterexample: a well-formed input mapping with distinct
(document, page) pairs whose compiled correlation identifiers coincide,
both being A__page-1__page-2. -/
theorem c7_counterexample :
    (c7Input.map Prod.fst).Nodup ∧
    (∀ doc ∈ c7Input, (doc.2.map Prod.fst).Nodup) ∧
    ¬ ((prepare_batch_file c7Input [] []).1.map BatchRequest.custom_id).Nodup :=
  ⟨by decide, by decide, by decide⟩

/-- Claim C7 as amended: the number of request lines always equals the
total number of (document, page) pairs, and an empty input yields zero
lines; pairwise distinctness of the correlation identifiers additionally
needs every document identifier to hold no occurrence of the separator. -/
theorem c7_count_and_uniqueness (pdf_data : List (Str × List (Str × List Element)))
    (sp model : Str)
    (hpages : ∀ doc ∈ pdf_data, (doc.2.map Prod.fst).Nodup) :
    (prepare_batch_file pdf_data sp model).1.length =
      (pdf_data.map (fun doc => doc.2.length)).sum ∧
    ((pdf_data.map Prod.fst).Nodup →
      (∀ doc ∈ pdf_data, ¬ sepStr <:+: doc.1) →
      ((prepare_batch_file pdf_data sp model).1.map BatchRequest.custom_id).Nodup) ∧
    (prepare_batch_file [] sp model).1 = [] := by
  refine ⟨prepare_batch_file_length pdf_data sp model hpages, ?_, rfl⟩
  intro hkeys hclean
  exact prepare_batch_file_ids_nodup sp model pdf_data hkeys hpages
    (fun doc hdoc => (containsSeq_eq_false_iff _ _).mpr (hclean doc hdoc))

/-- The two-document input of the compile scenario. -/
def c8Input : List (Str × List (Str × List Element)) :=
  [("A.pdf".toList, [("1".toList, [⟨none, some "text1".toList, none, none⟩])]),
   ("B.pdf".toList, [("1".toList, [⟨none, some "text2".toList, none, none⟩]),
                     ("2".toList, [⟨none, some "text3".toList, none, none⟩])])]

/-- Witness for c7_count_and_uniqueness at the compile-scenario input. -/
theorem c7_witness :
    (prepare_batch_file c8Input [] []).1.length =
      (c8Input.map (fun doc => doc.2.length)).sum ∧
    ((prepare_batch_file c8Input [] []).1.map BatchRequest.custom_id).Nodup := by
  have h := c7_count_and_uniqueness c8Input [] [] (by decide)
  exact ⟨h.1, h.2.1 (by decide) (by decide)⟩

/-- Claim C8: compiling the scenario input produces exactly three request
lines carrying the correlation identifiers A.pdf__page-1, B.pdf__page-1
and B.pdf__page-2, in that order. -/
theorem c8_compile_scenario (sp model : Str) :
    (prepare_batch_file c8Input sp model).1.length = 3 ∧
    (prepare_batch_file c8Input sp model).1.map BatchRequest.custom_id =
      ["A.pdf__page-1".toList, "B.pdf__page-1".toList, "B.pdf__page-2".toList] := by
  have hids : (prepare_batch_file c8Input sp model).1.map BatchRequest.custom_id =
      ["A.pdf__page-1".toList, "B.pdf__page-1".toList, "B.pdf__page-2".toList] := by
    rw [prepare_batch_file_ids sp model c8Input (by decide)]
    decide
  refine ⟨?_, hids⟩
  have hlen := congrArg List.length hids
  simpa using hlen

/-- Claim C9: on every mapping of page to ordered element list the
Context Builder returns one entry per page, in order, whose string is the
page label followed, in the original element order, by each element's
effective text: the tagged analysis field for a table or image element
(empty when absent) and the content field otherwise (empty when absent);
the function is total, so no input raises. -/
theorem c9_context_builder (pdf_data : List (Str × List Element))
    (h : (pdf_data.map Prod.fst).Nodup) :
    prepare_context_for_llm pdf_data =
      pdf_data.map (fun pg => (pg.1, joinSpace (pageLabel pg.1 :: pg.2.map elementText))) :=
  prepare_context_eq pdf_data h

/-- Witness for c9_context_builder on a two-page input with a table and a
plain text element. -/
theorem c9_witness :
    prepare_context_for_llm
      [("1".toList, [⟨none, some "Test content".toList, none, none⟩]),
       ("2".toList, [⟨some "Table".toList, none, some "Table analysis result".toList, none⟩])] =
      [("1".toList, "Page 1: Test content".toList),
       ("2".toList, "Page 2: Table: Table analysis result".toList)] := by
  rw [c9_context_builder _ (by decide)]
  decide

/-- Claim C5: submit_batch_job either fails at some step (upload, job
creation, or record persistence) and then returns the sentinel none with
the durable state unchanged and no Job Record persisted, or every step
succeeds and then it persists exactly one Job Record carrying the
supplied metadata skeleton with status submitted and returns the external
job identifier. -/
theorem c5_submit_atomicity (so : SubmitOracle) (md : BatchMetadata) (st : FsState) :
    ((so.upload = none ∨ so.create = none ∨ so.persistOk = false) →
      submit_batch_job so md st = (st, none)) ∧
    (∀ fid bid, so.upload = some fid → so.create = some bid → so.persistOk = true →
      submit_batch_job so md st =
        ({ st with batchInfo := some ⟨some bid, fid, so.now, "submitted".toList, md⟩ },
          some bid)) := by
  constructor
  · intro h
    rcases h with h | h | h
    · simp [submit_batch_job, h]
    · cases hu : so.upload <;> simp [submit_batch_job, h, hu]
    · cases hu : so.upload <;> cases hc : so.create <;> simp [submit_batch_job, h, hu, hc]
  · intro fid bid hu hc hp
    simp [submit_batch_job, hu, hc, hp]

/-- Witness for c5_submit_atomicity on the all-success path. -/
theorem c5_witness :
    submit_batch_job ⟨some "f".toList, some "b".toList, true, "t".toList⟩ [] ⟨none, []⟩ =
      (⟨some ⟨some "b".toList, "f".toList, "t".toList, "submitted".toList, []⟩, []⟩,
        some "b".toList) :=
  (c5_submit_atomicity ⟨some "f".toList, some "b".toList, true, "t".toList⟩ [] ⟨none, []⟩).2
    "f".toList "b".toList rfl rfl rfl

/-- Claim C6: with a well-formed Job Record present and the service
reporting anything other than completed with a truthy output handle,
check_batch_status persists the record with only its status field
replaced by the retrieved status, deletes nothing, writes no artifact,
and returns exactly the retrieved status string. -/
theorem c6_non_terminal (sv : ServiceView) (st : FsState) (bi : BatchInfo)
    (bid : Str) (rb : RemoteBatch)
    (hst : st.batchInfo = some bi) (hbid : bi.batch_id = some bid)
    (hne : bid ≠ []) (hr : sv.retrieve = some rb)
    (hnc : ¬ (rb.status = "completed".toList ∧ truthyHandle rb.output_file_id = true)) :
    check_batch_status sv st =
      ({ st with batchInfo := some { bi with status := rb.status } }, rb.status) :=
  check_refresh hst hbid (by simpa using hne) hr hnc

/-- Witness for c6_non_terminal with a validating job. -/
theorem c6_witness :
    check_batch_status ⟨some ⟨"validating".toList, none⟩, none⟩
      ⟨some ⟨some "b".toList, "f".toList, "t".toList, "submitted".toList, []⟩, []⟩ =
      (⟨some ⟨some "b".toList, "f".toList, "t".toList, "validating".toList, []⟩, []⟩,
        "validating".toList) :=
  c6_non_terminal ⟨some ⟨"validating".toList, none⟩, none⟩
    ⟨some ⟨some "b".toList, "f".toList, "t".toList, "submitted".toList, []⟩, []⟩
    ⟨some "b".toList, "f".toList, "t".toList, "submitted".toList, []⟩ "b".toList
    ⟨"validating".toList, none⟩ rfl rfl (by decide) rfl (by decide)

/-- Claim C4, counterexample: when the external service itself reports
the literal status string completed_and_processed, check_batch_status
persists and returns that string while the Job Record is still on disk,
so the call returns completed_and_processed without having deleted the
record. -/
theorem c4_counterexample :
    (check_batch_status ⟨some ⟨"completed_and_processed".toList, none⟩, none⟩
      ⟨some ⟨some "b".toList, "f".toList, "t".toList, "submitted".toList, []⟩, []⟩).2 =
      "completed_and_processed".toList ∧
    (check_batch_status ⟨some ⟨"completed_and_processed".toList, none⟩, none⟩
      ⟨some ⟨some "b".toList, "f".toList, "t".toList, "submitted".toList, []⟩, []⟩).1.batchInfo ≠
      none :=
  ⟨rfl, by decide⟩

/-- Claim C4 as amended: provided the external service does not itself
report the reserved literal status string, after any call to
check_batch_status that returns completed_and_processed the Job Record no
longer exists, and every subsequent call on the resulting state returns
not_found and changes nothing. -/
theorem c4_cleanup_idempotent (sv : ServiceView) (st : FsState)
    (hsv : ∀ rb, sv.retrieve = some rb → rb.status ≠ "completed_and_processed".toList)
    (hret : (check_batch_status sv st).2 = "completed_and_processed".toList) :
    (check_batch_status sv st).1.batchInfo = none ∧
    ∀ sv' : ServiceView, check_batch_status sv' (check_batch_status sv st).1 =
      ((check_batch_status sv st).1, "not_found".toList) := by
  cases hbi : st.batchInfo with
  | none =>
    rw [check_not_found hbi] at hret
    exact absurd (show ("not_found".toList : Str) = "completed_and_processed".toList from hret)
      (by decide)
  | some bi =>
    cases hid : bi.batch_id with
    | none =>
      rw [check_no_id hbi hid] at hret
      exact absurd (show ("error".toList : Str) = "completed_and_processed".toList from hret)
        (by decide)
    | some bid =>
      cases hbe : bid.isEmpty with
      | true =>
        rw [check_empty_id hbi hid hbe] at hret
        exact absurd (show ("error".toList : Str) = "completed_and_processed".toList from hret)
          (by decide)
      | false =>
        cases hr : sv.retrieve with
        | none =>
          rw [check_retrieve_fail hbi hid hbe hr] at hret
          exact absurd (show ("error".toList : Str) = "completed_and_processed".toList from hret)
            (by decide)
        | some rb =>
          by_cases hc : rb.status = "completed".toList ∧ truthyHandle rb.output_file_id = true
          · cases hco : sv.content with
            | none =>
              rw [check_content_fail hbi hid hbe hr hc hco] at hret
              exact absurd
                (show ("error".toList : Str) = "completed_and_processed".toList from hret)
                (by decide)
            | some lines =>
              cases hg : groupResults lines with
              | none =>
                rw [check_group_fail hbi hid hbe hr hc hco hg] at hret
                exact absurd
                  (show ("error".toList : Str) = "completed_and_processed".toList from hret)
                  (by decide)
              | some g =>
                rw [check_success hbi hid hbe hr hc hco hg]
                exact ⟨rfl, fun _ => check_not_found rfl⟩
          · rw [check_refresh hbi hid hbe hr hc] at hret
            exact absurd hret (hsv rb hr)

/-- The completed-job service view of the reconciliation scenario. -/
def c4Sv : ServiceView :=
  ⟨some ⟨"completed".toList, some "out".toList⟩,
    some [⟨some "A.pdf__page-1".toList, some (JsonVal.obj [("x".toList, JsonVal.num 1)])⟩]⟩

/-- A durable state holding one well-formed Job Record. -/
def c4St : FsState :=
  ⟨some ⟨some "b".toList, "f".toList, "t".toList, "submitted".toList, []⟩, []⟩

/-- Witness for c4_cleanup_idempotent at a concrete completed job. -/
theorem c4_witness :
    (check_batch_status c4Sv c4St).1.batchInfo = none ∧
    check_batch_status ⟨none, none⟩ (check_batch_status c4Sv c4St).1 =
      ((check_batch_status c4Sv c4St).1, "not_found".toList) := by
  have hsv : ∀ rb, c4Sv.retrieve = some rb →
      rb.status ≠ "completed_and_processed".toList := by
    intro rb hrb
    obtain rfl : (⟨"completed".toList, some "out".toList⟩ : RemoteBatch) = rb :=
      Option.some_inj.mp hrb
    decide
  have h := c4_cleanup_idempotent c4Sv c4St hsv rfl
  exact ⟨h.1, h.2 ⟨none, none⟩⟩

/-- The single downloaded result line of the reconciliation scenario. -/
def c3Lines : List ResLine :=
  [⟨some "A.pdf__page-1".toList, some (JsonVal.obj [("x".toList, JsonVal.num 1)])⟩]

/-- The completed-job service view downloading c3Lines. -/
def c3Sv : ServiceView := ⟨some ⟨"completed".toList, some "out".toList⟩, some c3Lines⟩

/-- A durable state holding one well-formed Job Record and no artifacts. -/
def c3St : FsState :=
  ⟨some ⟨some "b".toList, "f".toList, "t".toList, "submitted".toList, []⟩, []⟩

/-- Claim C3: for a completed job whose result lines each carry a
correlation identifier splitting into exactly two pieces, grouping
succeeds, and for every document D with grouped map m the reconciler
performs the write of m to the artifact of D, the keys of m are exactly
the pages decoded for D, and (when those pages are pairwise distinct)
each page maps to the response payload of its result line; in particular
the single scenario line reconciles into the artifact A_metadata.json
holding exactly page 1 with its payload, after which the record is
deleted. -/
theorem c3_reconciliation_completeness (lines : List ResLine)
    (hok : ∀ l ∈ lines, ∃ cid, l.custom_id = some cid ∧ (pySplit sepStr cid).length = 2) :
    groupResults lines = some (lines.foldl insertLine []) ∧
    (∀ D m, alookup D (lines.foldl insertLine []) = some m →
      (artifactName D, m) ∈ (lines.foldl insertLine []).map (fun e => (artifactName e.1, e.2)) ∧
      (∀ p, (alookup p m).isSome = true ↔ p ∈ (pagesFor D lines).map Prod.fst) ∧
      (((pagesFor D lines).map Prod.fst).Nodup →
        ∀ p v, (p, v) ∈ pagesFor D lines → alookup p m = some v)) ∧
    check_batch_status c3Sv c3St =
      (⟨none, [("A_metadata.json".toList,
          [("1".toList, JsonVal.obj [("x".toList, JsonVal.num 1)])])]⟩,
        "completed_and_processed".toList) := by
  have hkeys : ∀ l ∈ lines, (lineKey l).isSome = true := by
    intro l hl
    obtain ⟨cid, hcid, hlen⟩ := hok l hl
    obtain ⟨d, p, hdp⟩ := decode_isSome_of_two hlen
    simp [lineKey, hcid, hdp]
  refine ⟨groupResultsAux_eq_foldl lines [] hkeys, ?_, rfl⟩
  intro D m hm
  have hm0 := hm
  rw [alookup_foldl_insertLine_none lines [] rfl] at hm
  cases he : (pagesFor D lines).isEmpty with
  | true => simp [he] at hm
  | false =>
    simp only [he, Bool.false_eq_true, if_false, Option.some.injEq] at hm
    obtain rfl := hm.symm
    refine ⟨List.mem_map_of_mem _ (mem_of_alookup hm0), ?_, ?_⟩
    · intro p
      rw [alookup_applyPages_isSome (pagesFor D lines) []]
      simp [alookup]
    · intro hnd p v hpv
      exact alookup_applyPages_nodup (pagesFor D lines) [] hnd hpv

/-- Witness for c3_reconciliation_completeness at the scenario line. -/
theorem c3_witness :
    groupResults c3Lines = some (c3Lines.foldl insertLine []) ∧
    (alookup "1".toList [("1".toList, JsonVal.obj [("x".toList, JsonVal.num 1)])]).isSome
      = true := by
  have h := c3_reconciliation_completeness c3Lines ?hok
  case hok =>
    rintro l hl
    simp only [c3Lines, List.mem_singleton] at hl
    subst hl
    exact ⟨"A.pdf__page-1".toList, rfl, by decide⟩
  refine ⟨h.1, ?_⟩
  have h2 := (h.2.1 "A.pdf".toList [("1".toList, JsonVal.obj [("x".toList, JsonVal.num 1)])]
    rfl).2.1 "1".toList
  rw [h2]
  decide

/-- The service view of the stale-job counterexample: the service still
reports the job as queued. -/
def c1Sv : ServiceView := ⟨some ⟨"queued".toList, none⟩, none⟩

/-- An all-success Submitter oracle. -/
def c1So : SubmitOracle := ⟨some "f2".toList, some "b2".toList, true, "t1".toList⟩

/-- A one-document work queue. -/
def c1Analyzed : List (Str × List (Str × List Element)) :=
  [("A.pdf".toList, [("1".toList, [])])]

/-- A durable state holding a well-formed Job Record recorded as queued. -/
def c1St : FsState :=
  ⟨some ⟨some "b1".toList, "f1".toList, "t0".toList, "queued".toList, []⟩, []⟩

/-- Claim C1, counterexample: a Job Record recorded with the in-flight
status queued (one of the claim's named examples), with the service also
reporting queued: the Driver deletes the record, invokes the Submitter
and persists a fresh Job Record in its place. -/
theorem c1_counterexample :
    c1St.batchInfo.map BatchInfo.status = some "queued".toList ∧
    (process_all_pdfs c1Sv c1So c1Analyzed [] [] c1St).2 = true ∧
    (process_all_pdfs c1Sv c1So c1Analyzed [] [] c1St).1.batchInfo ≠ c1St.batchInfo :=
  ⟨rfl, rfl, by decide⟩

/-- Claim C1 as amended: the in-flight statuses on which the Driver stops
are exactly submitted and in_progress as reported live by the service;
for those, with a well-formed Job Record present, the invocation returns
having only refreshed the record's status field, without deleting the
record, without invoking the Submitter and without creating a second
record. -/
theorem c1_inflight_stops (sv : ServiceView) (so : SubmitOracle)
    (analyzed : List (Str × List (Str × List Element))) (sp model : Str)
    (st : FsState) (bi : BatchInfo) (bid : Str) (rb : RemoteBatch)
    (hst : st.batchInfo = some bi) (hbid : bi.batch_id = some bid) (hne : bid ≠ [])
    (hr : sv.retrieve = some rb)
    (hin : rb.status = "submitted".toList ∨ rb.status = "in_progress".toList) :
    process_all_pdfs sv so analyzed sp model st =
      ({ st with batchInfo := some { bi with status := rb.status } }, false) := by
  have hnc : ¬ (rb.status = "completed".toList ∧ truthyHandle rb.output_file_id = true) := by
    rintro ⟨hk, -⟩
    rcases hin with h | h <;> (rw [h] at hk; exact absurd hk (by decide))
  have hchk := check_refresh hst hbid (by simpa using hne) hr hnc
  simp only [process_all_pdfs, hst]
  rw [hchk]
  have h1 : ¬ (rb.status = "completed".toList ∨
      rb.status = "completed_and_processed".toList) := by
    rcases hin with h | h <;> (rw [h]; decide)
  rw [if_neg h1, if_pos hin]

/-- Witness for c1_inflight_stops with a live in_progress job. -/
theorem c1_witness :
    process_all_pdfs ⟨some ⟨"in_progress".toList, none⟩, none⟩ c1So c1Analyzed [] []
      ⟨some ⟨some "b1".toList, "f1".toList, "t0".toList, "submitted".toList, []⟩, []⟩ =
      (⟨some ⟨some "b1".toList, "f1".toList, "t0".toList, "in_progress".toList, []⟩, []⟩,
        false) :=
  c1_inflight_stops ⟨some ⟨"in_progress".toList, none⟩, none⟩ c1So c1Analyzed [] []
    ⟨some ⟨some "b1".toList, "f1".toList, "t0".toList, "submitted".toList, []⟩, []⟩
    ⟨some "b1".toList, "f1".toList, "t0".toList, "submitted".toList, []⟩ "b1".toList
    ⟨"in_progress".toList, none⟩ rfl rfl (by decide) rfl (Or.inr rfl)

/-- Claim C10: two distinct documents with equal stems map to the same
artifact path; in the reconciler's write sequence the later write fully
replaces the earlier one, so the earlier document's pages are lost; and
the Driver's already-processed filter drops a document as soon as any
document with the same stem has an artifact on disk. -/
theorem c10_stem_collision (D1 D2 : Str) (m1 m2 : List (Str × JsonVal))
    (files : List (Str × List (Str × JsonVal)))
    (_hne : D1 ≠ D2) (hstem : pathStem D1 = pathStem D2) :
    artifactName D1 = artifactName D2 ∧
    alookup (artifactName D1) (writeOutputs [(D1, m1), (D2, m2)] files) = some m2 ∧
    (∀ (analyzed : List (Str × List (Str × List Element))) (st : FsState) pages,
      artifactName D1 ∈ st.outputs.map Prod.fst →
      (D2, pages) ∉ filterProcessed analyzed st) := by
  have han : artifactName D1 = artifactName D2 := by
    unfold artifactName
    rw [hstem]
  refine ⟨han, ?_, ?_⟩
  · unfold writeOutputs
    simp only [List.foldl_cons, List.foldl_nil]
    rw [han]
    exact alookup_upsert_self (artifactName D2) m2 _
  · intro analyzed st pages hmem hcontra
    unfold filterProcessed at hcontra
    rw [List.mem_filter] at hcontra
    have h2 := hcontra.2
    simp only [decide_eq_true_eq] at h2
    exact h2 (han ▸ hmem)

/-- Witness for c10_stem_collision at report.pdf and report.docx. -/
theorem c10_witness :
    artifactName "report.pdf".toList = artifactName "report.docx".toList ∧
    alookup (artifactName "report.pdf".toList)
      (writeOutputs [("report.pdf".toList, []),
        ("report.docx".toList, [("1".toList, JsonVal.num 1)])] []) =
      some [("1".toList, JsonVal.num 1)] := by
  have h := c10_stem_collision "report.pdf".toList "report.docx".toList []
    [("1".toList, JsonVal.num 1)] [] (by decide) (by decide)
  exact ⟨h.1, h.2.1⟩

end LlmExtctMeta
